import Mathlib

/-!
Verification development for a Linear→Discord notification relay service
(Go, single `main.go`).  The service receives webhook events from the Linear
issue tracker, transforms them into Discord embed payloads, and also renders
polled reports of open issues grouped by status and by assignee.

Go strings are byte sequences (`len`, slicing and equality are byte-wise), so
program strings are modelled as lists of byte values.  Pure helpers are
translated directly; the HTTP layer is modelled by explicit request/response
values, and network sends by an explicit event trace.
-/

namespace LinearDiscordRelay

/-- Go strings are byte sequences; `Str` models them as lists of byte values. -/
abbrev Str := List Nat

/-- The UTF-8 bytes of a string literal, as a `Str`. -/
def strBytes (s : String) : Str :=
  (s.data.map (fun c => (String.utf8EncodeChar c).map (fun b => b.toNat))).flatten

/-- The three ASCII `.` bytes appended by `truncate` (Go `"..."`). -/
def ellipsis : Str := [46, 46, 46]

/-- Go `truncate(s, maxLen)` (main.go: both copies are identical):
`if len(s) <= maxLen { return s }; return s[:maxLen-3] + "..."`.
For every call site in the program `maxLen ≥ 3`, where the byte slice
`s[:maxLen-3]` is in range and equals `s.take (maxLen - 3)`; the
out-of-range case is modelled by `truncateChecked` below. -/
def truncate (s : Str) (maxLen : Nat) : Str :=
  if s.length ≤ maxLen then s else s.take (maxLen - 3) ++ ellipsis

/-- Go `truncate` with its `int` budget and Go slice semantics made explicit:
`none` models the slice-bounds panic of `s[:maxLen-3]` when `maxLen - 3` is
negative (which in the taken branch is the only way the slice can be out of
range, since there `maxLen - 3 < len(s)`). -/
def truncateChecked (s : Str) (maxLen : Int) : Option Str :=
  if (s.length : Int) ≤ maxLen then some s
  else if maxLen - 3 < 0 then none
  else some (s.take (maxLen - 3).toNat ++ ellipsis)

/-- The budgets the program passes to `truncate`, one entry per call site:
300 (issue description), 500 (comment body), 300 (project description),
40 (priority-issue title), 50 (recently-updated title), 50 (per-user task
title). -/
def programTruncateBudgets : List Int := [300, 500, 300, 40, 50, 50]

theorem truncate_length_of_three_le (s : Str) (n : Nat) (h3 : 3 ≤ n) :
    (truncate s n).length = min s.length n := by
  unfold truncate
  by_cases h : s.length ≤ n
  · simp [h, Nat.min_eq_left h]
  · push_neg at h
    have hle : n - 3 ≤ s.length := le_of_lt (lt_of_le_of_lt (Nat.sub_le n 3) h)
    simp [Nat.not_le.mpr h, ellipsis, Nat.min_eq_left hle, Nat.min_eq_right (le_of_lt h)]
    omega

/-- C1: the string truncation helper is the identity at or under the budget,
idempotent beyond it, and for over-long strings returns the first
`n - 3` bytes of `s` followed by the ellipsis marker, for every budget `n`
the program uses. -/
theorem truncate_idempotent (s : Str) (n : Nat)
    (hn : n = 40 ∨ n = 50 ∨ n = 300 ∨ n = 500) :
    (s.length ≤ n → truncate s n = s) ∧
    truncate (truncate s n) n = truncate s n ∧
    (n < s.length → truncate s n = s.take (n - 3) ++ ellipsis) := by
  have h3 : 3 ≤ n := by rcases hn with rfl | rfl | rfl | rfl <;> norm_num
  refine ⟨fun h => by simp [truncate, h], ?_, fun h => by simp [truncate, Nat.not_le.mpr h]⟩
  have hlen := truncate_length_of_three_le s n h3
  rcases le_or_lt s.length n with h | h
  · simp [truncate, h]
  · have ht : truncate s n = s.take (n - 3) ++ ellipsis := by
      simp [truncate, Nat.not_le.mpr h]
    have hl : (s.take (n - 3) ++ ellipsis).length ≤ n := by
      rw [← ht, hlen]; exact Nat.min_le_right _ _
    rw [ht]
    unfold truncate
    rw [if_pos hl]

/-- C1 witness: a concrete over-long string at budget 40. -/
theorem truncate_idempotent_witness :
    ((strBytes "this title is much longer than the forty byte budget allows").length ≤ 40 →
        truncate (strBytes "this title is much longer than the forty byte budget allows") 40 =
          strBytes "this title is much longer than the forty byte budget allows") ∧
    truncate (truncate (strBytes "this title is much longer than the forty byte budget allows") 40) 40 =
      truncate (strBytes "this title is much longer than the forty byte budget allows") 40 ∧
    (40 < (strBytes "this title is much longer than the forty byte budget allows").length →
      truncate (strBytes "this title is much longer than the forty byte budget allows") 40 =
        (strBytes "this title is much longer than the forty byte budget allows").take (40 - 3) ++ ellipsis) :=
  truncate_idempotent (strBytes "this title is much longer than the forty byte budget allows") 40
    (Or.inl rfl)

/-- C9: with Go slice semantics, `truncate` panics exactly when the string is
over a budget below 3 (`none` case of `truncateChecked`); for budgets at
least 3 it is total and returns a string of byte length `min (len s) maxLen`;
every call-site budget of the program is one of 40, 50, 300, 500, so the
panic branch is unreachable in the program. -/
theorem truncateChecked_safety (s : Str) (maxLen : Int) :
    ((s.length : Int) > maxLen → maxLen < 3 → truncateChecked s maxLen = none) ∧
    (3 ≤ maxLen →
      truncateChecked s maxLen = some (truncate s maxLen.toNat) ∧
      (truncate s maxLen.toNat).length = min s.length maxLen.toNat) ∧
    (∀ b ∈ programTruncateBudgets, b = 40 ∨ b = 50 ∨ b = 300 ∨ b = 500) := by
  refine ⟨fun hgt hlt => ?_, fun h3 => ⟨?_, ?_⟩, by decide⟩
  · unfold truncateChecked
    rw [if_neg (by omega), if_pos (by omega)]
  · unfold truncateChecked truncate
    by_cases h : (s.length : Int) ≤ maxLen
    · rw [if_pos h, if_pos (by omega)]
    · rw [if_neg h, if_neg (by omega), if_neg (by omega)]
      have : (maxLen - 3).toNat = maxLen.toNat - 3 := by omega
      rw [this]
  · exact truncate_length_of_three_le s maxLen.toNat (by omega)

/-- C9 witness: budget 2 on a 4-byte string panics; budget 40 is total. -/
theorem truncateChecked_safety_witness :
    truncateChecked (strBytes "abcd") 2 = none ∧
    truncateChecked (strBytes "abcd") 40 = some (truncate (strBytes "abcd") 40) :=
  ⟨(truncateChecked_safety (strBytes "abcd") 2).1 (by decide) (by decide),
   ((truncateChecked_safety (strBytes "abcd") 40).2.1 (by decide)).1⟩

/-! ### Linear data model (main.go struct declarations) -/

/-- `time.Time` values, abstracted to a linearly ordered stamp. -/
abbrev Time := Int

/-- Go `User`. -/
structure User where
  id : Str
  name : Str
  displayName : Str
  email : Str
  deriving DecidableEq

/-- Go `State` (a Linear workflow state). -/
structure State where
  id : Str
  name : Str
  color : Str
  type : Str
  deriving DecidableEq

/-- Go `Team`. -/
structure Team where
  id : Str
  name : Str
  key : Str
  deriving DecidableEq

/-- Go `Label`. -/
structure Label where
  id : Str
  name : Str
  color : Str
  deriving DecidableEq

/-- Go `Issue` (the relay version, with `Description`); `Labels.Nodes`
flattened to a list. -/
structure Issue where
  id : Str
  identifier : Str
  title : Str
  description : Str
  priority : Int
  priorityLabel : Str
  url : Str
  createdAt : Time
  updatedAt : Time
  state : State
  assignee : Option User
  team : Team
  labels : List Label
  deriving DecidableEq

/-! ### Grouping (main.go: `groupByStatus`, `getStatusPriority`,
`groupByAssignee`)

Go builds a `map[string]*Group` while iterating the issues in order, then
sorts the groups with `sort.Slice` and a comparator.  Go's map iteration
order and `sort.Slice` tie order are unspecified; the model keeps groups in
first-occurrence order and sorts with insertion sort, a deterministic
refinement — every property proved below holds for any sorted permutation,
matching the spec's "ties in unspecified order". -/

/-- Go `StatusGroup`. -/
structure StatusGroup where
  name : Str
  type : Str
  color : Str
  issues : List Issue
  deriving DecidableEq

/-- Go `AssigneeGroup`. -/
structure AssigneeGroup where
  name : Str
  issues : List Issue
  deriving DecidableEq

/-- Go `getStatusPriority`. -/
def getStatusPriority (statusType : Str) : Nat :=
  if statusType = strBytes "started" then 1
  else if statusType = strBytes "unstarted" then 2
  else if statusType = strBytes "backlog" then 3
  else 4

/-- One step of `groupByStatus`'s map building: append the issue to the group
keyed by its state name, or add a fresh group carrying the state's name, type
and color. -/
def insertStatus (issue : Issue) : List StatusGroup → List StatusGroup
  | [] => [⟨issue.state.name, issue.state.type, issue.state.color, [issue]⟩]
  | g :: gs =>
    if g.name = issue.state.name then
      ⟨g.name, g.type, g.color, g.issues ++ [issue]⟩ :: gs
    else g :: insertStatus issue gs

/-- The unsorted status groups, in first-occurrence order. -/
def statusGroupsOf (issues : List Issue) : List StatusGroup :=
  issues.foldl (fun acc i => insertStatus i acc) []

/-- `sort.Slice`'s postcondition for `groupByStatus`'s comparator
`getStatusPriority(i) < getStatusPriority(j)`: consecutive groups are related
by `≤` on status priority. -/
def statusLe (a b : StatusGroup) : Prop :=
  getStatusPriority a.type ≤ getStatusPriority b.type

instance : DecidableRel statusLe := fun a b => by unfold statusLe; infer_instance

instance : IsTotal StatusGroup statusLe := ⟨fun _ _ => Nat.le_total _ _⟩

instance : IsTrans StatusGroup statusLe := ⟨fun _ _ _ => Nat.le_trans⟩

/-- Go `groupByStatus`: group by state name, then sort by status priority. -/
def groupByStatus (issues : List Issue) : List StatusGroup :=
  List.insertionSort statusLe (statusGroupsOf issues)

/-- The literal `"Unassigned"` sentinel. -/
def unassignedName : Str := strBytes "Unassigned"

/-- The group key of `groupByAssignee`: display name when non-empty, else
name; `"Unassigned"` for a nil assignee. -/
def assigneeKey (issue : Issue) : Str :=
  match issue.assignee with
  | some u => if u.displayName = [] then u.name else u.displayName
  | none => unassignedName

/-- One step of `groupByAssignee`'s map building. -/
def insertAssignee (issue : Issue) : List AssigneeGroup → List AssigneeGroup
  | [] => [⟨assigneeKey issue, [issue]⟩]
  | g :: gs =>
    if g.name = assigneeKey issue then ⟨g.name, g.issues ++ [issue]⟩ :: gs
    else g :: insertAssignee issue gs

/-- The unsorted assignee groups, in first-occurrence order. -/
def assigneeGroupsOf (issues : List Issue) : List AssigneeGroup :=
  issues.foldl (fun acc i => insertAssignee i acc) []

/-- Go comparator of `groupByAssignee`'s `sort.Slice`: `"Unassigned"` sorts
after everything, otherwise larger groups sort first. -/
def assigneeLess (a b : AssigneeGroup) : Bool :=
  if a.name = unassignedName then false
  else if b.name = unassignedName then true
  else decide (b.issues.length < a.issues.length)

/-- `sort.Slice`'s postcondition for `assigneeLess`: `b` need not precede
`a`. -/
def assigneeLe (a b : AssigneeGroup) : Prop := assigneeLess b a = false

instance : DecidableRel assigneeLe := fun a b => by unfold assigneeLe; infer_instance

instance : IsTotal AssigneeGroup assigneeLe := by
  constructor
  intro a b
  unfold assigneeLe assigneeLess
  split_ifs <;> simp <;> omega

instance : IsTrans AssigneeGroup assigneeLe := by
  constructor
  intro a b c hab hbc
  unfold assigneeLe assigneeLess at *
  split_ifs at * <;> simp_all <;> omega

/-- Go `groupByAssignee`: group by assignee key, then sort by descending
count with `"Unassigned"` last. -/
def groupByAssignee (issues : List Issue) : List AssigneeGroup :=
  List.insertionSort assigneeLe (assigneeGroupsOf issues)

/-! ### Grouping lemmas -/

theorem flatten_insertStatus (i : Issue) (gs : List StatusGroup) :
    List.Perm ((insertStatus i gs).map StatusGroup.issues).flatten
      (i :: (gs.map StatusGroup.issues).flatten) := by
  induction gs with
  | nil => simp [insertStatus]
  | cons g gs ih =>
    by_cases h : g.name = i.state.name
    · simp only [insertStatus, if_pos h, List.map_cons, List.flatten_cons,
        List.append_assoc, List.singleton_append]
      exact List.perm_middle
    · simp only [insertStatus, if_neg h, List.map_cons, List.flatten_cons]
      exact (ih.append_left g.issues).trans List.perm_middle

theorem flatten_statusFold (issues : List Issue) (acc : List StatusGroup) :
    List.Perm
      (((issues.foldl (fun a i => insertStatus i a) acc).map StatusGroup.issues).flatten)
      ((acc.map StatusGroup.issues).flatten ++ issues) := by
  induction issues generalizing acc with
  | nil => simp
  | cons i rest ih =>
    simp only [List.foldl_cons]
    refine (ih _).trans ?_
    refine ((flatten_insertStatus i acc).append_right rest).trans ?_
    exact List.perm_middle.symm

theorem flatten_insertAssignee (i : Issue) (gs : List AssigneeGroup) :
    List.Perm ((insertAssignee i gs).map AssigneeGroup.issues).flatten
      (i :: (gs.map AssigneeGroup.issues).flatten) := by
  induction gs with
  | nil => simp [insertAssignee]
  | cons g gs ih =>
    by_cases h : g.name = assigneeKey i
    · simp only [insertAssignee, if_pos h, List.map_cons, List.flatten_cons,
        List.append_assoc, List.singleton_append]
      exact List.perm_middle
    · simp only [insertAssignee, if_neg h, List.map_cons, List.flatten_cons]
      exact (ih.append_left g.issues).trans List.perm_middle

theorem flatten_assigneeFold (issues : List Issue) (acc : List AssigneeGroup) :
    List.Perm
      (((issues.foldl (fun a i => insertAssignee i a) acc).map AssigneeGroup.issues).flatten)
      ((acc.map AssigneeGroup.issues).flatten ++ issues) := by
  induction issues generalizing acc with
  | nil => simp
  | cons i rest ih =>
    simp only [List.foldl_cons]
    refine (ih _).trans ?_
    refine ((flatten_insertAssignee i acc).append_right rest).trans ?_
    exact List.perm_middle.symm

theorem statusKey_insert (i : Issue) (gs : List StatusGroup)
    (h : ∀ g ∈ gs, ∀ iss ∈ g.issues, iss.state.name = g.name) :
    ∀ g ∈ insertStatus i gs, ∀ iss ∈ g.issues, iss.state.name = g.name := by
  induction gs with
  | nil =>
    intro g hg iss hiss
    simp [insertStatus] at hg
    subst hg
    simp at hiss
    simp [hiss]
  | cons g0 gs ih =>
    intro g hg iss hiss
    by_cases hk : g0.name = i.state.name
    · simp only [insertStatus, if_pos hk, List.mem_cons] at hg
      rcases hg with rfl | hg
      · simp at hiss
        rcases hiss with hiss | rfl
        · exact h g0 (by simp) iss hiss
        · simpa using hk.symm
      · exact h g (by simp [hg]) iss hiss
    · simp only [insertStatus, if_neg hk, List.mem_cons] at hg
      rcases hg with rfl | hg
      · exact h g (by simp) iss hiss
      · exact ih (fun g' hg' => h g' (by simp [hg'])) g hg iss hiss

theorem statusKey_fold (issues : List Issue) (acc : List StatusGroup)
    (h : ∀ g ∈ acc, ∀ iss ∈ g.issues, iss.state.name = g.name) :
    ∀ g ∈ issues.foldl (fun a i => insertStatus i a) acc,
      ∀ iss ∈ g.issues, iss.state.name = g.name := by
  induction issues generalizing acc with
  | nil => simpa using h
  | cons i rest ih =>
    simp only [List.foldl_cons]
    exact ih _ (statusKey_insert i acc h)

theorem assigneeKey_insert (i : Issue) (gs : List AssigneeGroup)
    (h : ∀ g ∈ gs, ∀ iss ∈ g.issues, g.name = assigneeKey iss) :
    ∀ g ∈ insertAssignee i gs, ∀ iss ∈ g.issues, g.name = assigneeKey iss := by
  induction gs with
  | nil =>
    intro g hg iss hiss
    simp [insertAssignee] at hg
    subst hg
    simp at hiss
    simp [hiss]
  | cons g0 gs ih =>
    intro g hg iss hiss
    by_cases hk : g0.name = assigneeKey i
    · simp only [insertAssignee, if_pos hk, List.mem_cons] at hg
      rcases hg with rfl | hg
      · simp at hiss
        rcases hiss with hiss | rfl
        · exact h g0 (by simp) iss hiss
        · simpa using hk
      · exact h g (by simp [hg]) iss hiss
    · simp only [insertAssignee, if_neg hk, List.mem_cons] at hg
      rcases hg with rfl | hg
      · exact h g (by simp) iss hiss
      · exact ih (fun g' hg' => h g' (by simp [hg'])) g hg iss hiss

theorem assigneeKey_fold (issues : List Issue) (acc : List AssigneeGroup)
    (h : ∀ g ∈ acc, ∀ iss ∈ g.issues, g.name = assigneeKey iss) :
    ∀ g ∈ issues.foldl (fun a i => insertAssignee i a) acc,
      ∀ iss ∈ g.issues, g.name = assigneeKey iss := by
  induction issues generalizing acc with
  | nil => simpa using h
  | cons i rest ih =>
    simp only [List.foldl_cons]
    exact ih _ (assigneeKey_insert i acc h)

theorem name_mem_insertAssignee (i : Issue) (gs : List AssigneeGroup) (b : Str) :
    b ∈ (insertAssignee i gs).map AssigneeGroup.name ↔
      b ∈ gs.map AssigneeGroup.name ∨ b = assigneeKey i := by
  induction gs with
  | nil => simp [insertAssignee]
  | cons g gs ih =>
    by_cases h : g.name = assigneeKey i
    · simp only [insertAssignee, if_pos h, List.map_cons, List.mem_cons]
      rw [← h]
      tauto
    · simp only [insertAssignee, if_neg h, List.map_cons, List.mem_cons, ih]
      tauto

theorem nodup_names_insertAssignee (i : Issue) (gs : List AssigneeGroup)
    (h : (gs.map AssigneeGroup.name).Nodup) :
    ((insertAssignee i gs).map AssigneeGroup.name).Nodup := by
  induction gs with
  | nil => simp [insertAssignee]
  | cons g gs ih =>
    simp only [List.map_cons, List.nodup_cons] at h
    by_cases hk : g.name = assigneeKey i
    · simp only [insertAssignee, if_pos hk, List.map_cons, List.nodup_cons]
      exact ⟨h.1, h.2⟩
    · simp only [insertAssignee, if_neg hk, List.map_cons, List.nodup_cons]
      refine ⟨?_, ih h.2⟩
      rw [name_mem_insertAssignee]
      rintro (hm | he)
      · exact h.1 hm
      · exact hk he

theorem nodup_names_assigneeFold (issues : List Issue) (acc : List AssigneeGroup)
    (h : (acc.map AssigneeGroup.name).Nodup) :
    ((issues.foldl (fun a i => insertAssignee i a) acc).map AssigneeGroup.name).Nodup := by
  induction issues generalizing acc with
  | nil => simpa using h
  | cons i rest ih =>
    simp only [List.foldl_cons]
    exact ih _ (nodup_names_insertAssignee i acc h)

theorem nodup_names_groupByAssignee (issues : List Issue) :
    ((groupByAssignee issues).map AssigneeGroup.name).Nodup := by
  have hp := List.perm_insertionSort assigneeLe (assigneeGroupsOf issues)
  exact (hp.map AssigneeGroup.name).symm.nodup
    (nodup_names_assigneeFold issues [] (by simp))

/-- C10: both groupings partition the input: the concatenation of all group
member lists is a permutation of the input, group sizes sum to the input
length, and every member of a group carries that group's key. -/
theorem grouping_partition (issues : List Issue) :
    List.Perm ((groupByStatus issues).map StatusGroup.issues).flatten issues ∧
    ((groupByStatus issues).map (fun g => g.issues.length)).sum = issues.length ∧
    (∀ g ∈ groupByStatus issues, ∀ iss ∈ g.issues, iss.state.name = g.name) ∧
    List.Perm ((groupByAssignee issues).map AssigneeGroup.issues).flatten issues ∧
    ((groupByAssignee issues).map (fun g => g.issues.length)).sum = issues.length ∧
    (∀ g ∈ groupByAssignee issues, ∀ iss ∈ g.issues, g.name = assigneeKey iss) := by
  have hs : List.Perm ((groupByStatus issues).map StatusGroup.issues).flatten issues := by
    refine (((List.perm_insertionSort statusLe
      (statusGroupsOf issues)).map StatusGroup.issues).flatten).trans ?_
    simpa using flatten_statusFold issues []
  have ha : List.Perm ((groupByAssignee issues).map AssigneeGroup.issues).flatten issues := by
    refine (((List.perm_insertionSort assigneeLe
      (assigneeGroupsOf issues)).map AssigneeGroup.issues).flatten).trans ?_
    simpa using flatten_assigneeFold issues []
  refine ⟨hs, ?_, ?_, ha, ?_, ?_⟩
  · have := hs.length_eq
    simpa [List.length_flatten, List.map_map, Function.comp] using this
  · intro g hg
    exact statusKey_fold issues [] (by simp) g
      ((List.perm_insertionSort _ _).mem_iff.mp hg)
  · have := ha.length_eq
    simpa [List.length_flatten, List.map_map, Function.comp] using this
  · intro g hg
    exact assigneeKey_fold issues [] (by simp) g
      ((List.perm_insertionSort _ _).mem_iff.mp hg)

/-- C3: in the status grouping, any group of strictly smaller status-type
priority (started=1, unstarted=2, backlog=3, other=4) comes strictly
earlier, for inputs whose state types span all four buckets. -/
theorem groupByStatus_bucket_order (issues : List Issue)
    (hspan : (∃ a ∈ issues, a.state.type = strBytes "started") ∧
      (∃ a ∈ issues, a.state.type = strBytes "unstarted") ∧
      (∃ a ∈ issues, a.state.type = strBytes "backlog") ∧
      ∃ a ∈ issues, getStatusPriority a.state.type = 4) :
    ∀ (i j : Nat) (hi : i < (groupByStatus issues).length)
      (hj : j < (groupByStatus issues).length),
      getStatusPriority ((groupByStatus issues)[i]).type <
        getStatusPriority ((groupByStatus issues)[j]).type → i < j := by
  intro i j hi hj hlt
  by_contra hji
  push_neg at hji
  have hsorted : (groupByStatus issues).Sorted statusLe :=
    List.sorted_insertionSort _ _
  rcases lt_or_eq_of_le hji with hlt2 | heq
  · have hrel := List.pairwise_iff_getElem.mp hsorted j i hj hi hlt2
    unfold statusLe at hrel
    omega
  · subst heq
    omega

/-- C2: the assignee grouping puts the `"Unassigned"` group last, sorts all
other pairs by descending member count, and keys every group by display name
with fallback to name, or `"Unassigned"` for a nil assignee. -/
theorem groupByAssignee_order (issues : List Issue) (hne : issues ≠ []) :
    (∀ (i : Nat) (hi : i < (groupByAssignee issues).length),
        ((groupByAssignee issues)[i]).name = unassignedName →
        i = (groupByAssignee issues).length - 1) ∧
    (∀ (i j : Nat) (hi : i < (groupByAssignee issues).length)
        (hj : j < (groupByAssignee issues).length), i < j →
        ((groupByAssignee issues)[i]).name ≠ unassignedName →
        ((groupByAssignee issues)[j]).name ≠ unassignedName →
        ((groupByAssignee issues)[j]).issues.length ≤
          ((groupByAssignee issues)[i]).issues.length) ∧
    (∀ g ∈ groupByAssignee issues, ∀ iss ∈ g.issues, g.name = assigneeKey iss) := by
  have hsorted : (groupByAssignee issues).Sorted assigneeLe :=
    List.sorted_insertionSort _ _
  have hnd := nodup_names_groupByAssignee issues
  refine ⟨?_, ?_, ?_⟩
  · intro i hi hiU
    by_contra hne2
    have hi1 : i + 1 < (groupByAssignee issues).length := by omega
    have hrel := List.pairwise_iff_getElem.mp hsorted i (i + 1) hi hi1 (by omega)
    have hnd' := List.pairwise_iff_getElem.mp hnd i (i + 1)
      (by simpa using hi) (by simpa using hi1) (by omega)
    simp only [List.getElem_map] at hnd'
    unfold assigneeLe assigneeLess at hrel
    by_cases h1 : ((groupByAssignee issues)[i + 1]).name = unassignedName
    · exact hnd' (by rw [hiU, h1])
    · rw [if_neg h1, if_pos hiU] at hrel
      simp at hrel
  · intro i j hi hj hij hiU hjU
    have hrel := List.pairwise_iff_getElem.mp hsorted i j hi hj hij
    unfold assigneeLe assigneeLess at hrel
    rw [if_neg hjU, if_neg hiU] at hrel
    exact Nat.le_of_not_lt (by simpa using hrel)
  · intro g hg
    exact assigneeKey_fold issues [] (by simp) g
      ((List.perm_insertionSort _ _).mem_iff.mp hg)

/-! ### Sample data for witnesses -/

/-- A sample workflow state. -/
def mkState (nm ty : String) : State := ⟨[], strBytes nm, [], strBytes ty⟩

/-- A sample user. -/
def mkUser (nm dn : String) : User := ⟨strBytes nm, strBytes nm, strBytes dn, []⟩

/-- A sample issue. -/
def mkIssue (ident : String) (st : State) (who : Option User) (prio : Int) : Issue :=
  ⟨strBytes ident, strBytes ident, strBytes ident, [], prio, [], [], 0, 0, st,
    who, ⟨[], [], []⟩, []⟩

/-- Four issues spanning all four status-type buckets. -/
def demoSpan : List Issue :=
  [mkIssue "D" (mkState "Triage" "triage") none 0,
   mkIssue "C" (mkState "Backlog" "backlog") none 0,
   mkIssue "B" (mkState "Todo" "unstarted") none 0,
   mkIssue "A" (mkState "In Progress" "started") none 0]

/-- Issues with two for Alice, one for Bob (empty display name), one
unassigned. -/
def demoAssignees : List Issue :=
  [mkIssue "U1" (mkState "Todo" "unstarted") none 0,
   mkIssue "A1" (mkState "Todo" "unstarted") (some (mkUser "alice" "Alice")) 0,
   mkIssue "B1" (mkState "Todo" "unstarted") (some (mkUser "bob" "")) 0,
   mkIssue "A2" (mkState "Todo" "unstarted") (some (mkUser "alice" "Alice")) 0]

/-- C3 witness: on `demoSpan` the started group (priority 1) precedes the
other-bucket group (priority 4). -/
theorem groupByStatus_bucket_order_witness :
    getStatusPriority ((groupByStatus demoSpan).get ⟨0, by decide⟩).type <
      getStatusPriority ((groupByStatus demoSpan).get ⟨3, by decide⟩).type ∧
      (0 : Nat) < 3 :=
  ⟨by decide,
   groupByStatus_bucket_order demoSpan
     ⟨by decide, by decide, by decide, by decide⟩ 0 3 (by decide) (by decide) (by decide)⟩

/-- C2 witness: on `demoAssignees` the `"Unassigned"` group sits at the last
index even though larger groups exist, and Alice's 2-issue group precedes
Bob's 1-issue group. -/
theorem groupByAssignee_order_witness :
    ((groupByAssignee demoAssignees).get ⟨2, by decide⟩).name = unassignedName ∧
      (2 : Nat) = (groupByAssignee demoAssignees).length - 1 ∧
      ((groupByAssignee demoAssignees).get ⟨1, by decide⟩).issues.length ≤
        ((groupByAssignee demoAssignees).get ⟨0, by decide⟩).issues.length :=
  ⟨by decide,
   (groupByAssignee_order demoAssignees (by decide)).1 2 (by decide) (by decide),
   (groupByAssignee_order demoAssignees (by decide)).2.1 0 1 (by decide) (by decide)
     (by decide) (by decide) (by decide)⟩

/-! ### Discord types and colors (main.go) -/

/-- Go `DiscordFooter`. -/
structure DiscordFooter where
  text : Str
  iconURL : Str
  deriving DecidableEq

/-- Go `DiscordAuthor`. -/
structure DiscordAuthor where
  name : Str
  url : Str
  iconURL : Str
  deriving DecidableEq

/-- Go `DiscordField`. -/
structure DiscordField where
  name : Str
  value : Str
  inline : Bool
  deriving DecidableEq

/-- Go `DiscordEmbed`. -/
structure DiscordEmbed where
  title : Str
  description : Str
  url : Str
  color : Nat
  timestamp : Str
  footer : Option DiscordFooter
  author : Option DiscordAuthor
  fields : List DiscordField
  deriving DecidableEq

/-- Go `DiscordWebhook`. -/
structure DiscordWebhook where
  content : Str
  username : Str
  avatarURL : Str
  embeds : List DiscordEmbed
  deriving DecidableEq

/-- Linear brand color. -/
def ColorBlue : Nat := 0x5E6AD2

/-- Success / done. -/
def ColorGreen : Nat := 0x22C55E

/-- Warning / in progress. -/
def ColorYellow : Nat := 0xEAB308

/-- Error / urgent. -/
def ColorRed : Nat := 0xEF4444

/-- Neutral. -/
def ColorGray : Nat := 0x6B7280

/-- Comments. -/
def ColorPurple : Nat := 0x8B5CF6

/-- Go `linearAvatarURL`. -/
def linearAvatarURL : Str := strBytes "https://asset.brandfetch.io/ideiLNHwrW/id_xq4rBdb.png"

/-- A single ASCII space, the `%s %s` separator. -/
def sp : Str := strBytes " "

/-- Go `getStateEmoji`. -/
def getStateEmoji (stateType : Str) : Str :=
  if stateType = strBytes "backlog" then strBytes "📥"
  else if stateType = strBytes "unstarted" then strBytes "⚪"
  else if stateType = strBytes "started" then strBytes "🔵"
  else if stateType = strBytes "completed" then strBytes "✅"
  else if stateType = strBytes "canceled" then strBytes "❌"
  else strBytes "📋"

/-- Go `getPriorityEmoji`. -/
def getPriorityEmoji (priority : Int) : Str :=
  if priority = 0 then strBytes "⬜"
  else if priority = 1 then strBytes "🔴"
  else if priority = 2 then strBytes "🟠"
  else if priority = 3 then strBytes "🟡"
  else if priority = 4 then strBytes "🟢"
  else strBytes "⬜"

/-- Go `strings.Join(xs, sep)`. -/
def joinWith (sep : Str) : List Str → Str
  | [] => []
  | [x] => x
  | x :: xs => x ++ sep ++ joinWith sep xs

/-- Whether a byte is an ASCII lower-case letter. -/
def isASCIILower (c : Nat) : Bool := decide (97 ≤ c) && decide (c ≤ 122)

/-- Whether a byte is an ASCII letter. -/
def isASCIILetter (c : Nat) : Bool := (decide (65 ≤ c) && decide (c ≤ 90)) || isASCIILower c

/-- Worker for `strTitle`; the flag records whether the previous byte was a
letter. -/
def titleMap : Bool → Str → Str
  | _, [] => []
  | prev, c :: cs =>
    (if !prev && isASCIILower c then c - 32 else c) :: titleMap (isASCIILetter c) cs

/-- ASCII fragment of Go `strings.Title`: upper-case each lower-case letter
not preceded by a letter (webhook action verbs are ASCII words). -/
def strTitle (s : Str) : Str := titleMap false s

/-! ### Linear webhook envelope (main.go webhook types) -/

/-- Go `LinearWebhookIssue`. -/
structure LinearWebhookIssue where
  id : Str
  identifier : Str
  title : Str
  description : Str
  priority : Int
  priorityLabel : Str
  state : Option State
  assignee : Option User
  team : Option Team
  labels : List Label
  url : Str
  deriving DecidableEq

/-- Go `LinearWebhookComment`. -/
structure LinearWebhookComment where
  id : Str
  body : Str
  issue : Option LinearWebhookIssue
  user : Option User
  createdAt : Str
  url : Str
  deriving DecidableEq

/-- Go `LinearWebhookProject`. -/
structure LinearWebhookProject where
  id : Str
  name : Str
  description : Str
  state : Str
  url : Str
  deriving DecidableEq

/-- The `data` payload of an envelope.  Go keeps it as raw JSON and
unmarshals it inside each transformer; the model carries the parsed value,
with `malformed` standing for JSON that fails to unmarshal into the
dispatched type. -/
inductive WebhookData where
  | issueData (i : LinearWebhookIssue)
  | commentData (c : LinearWebhookComment)
  | projectData (p : LinearWebhookProject)
  | malformed
  deriving DecidableEq

/-- Go `LinearWebhook` (envelope fields the transformers read). -/
structure LinearWebhook where
  action : Str
  actor : Option User
  createdAt : Str
  data : WebhookData
  type : Str
  url : Str
  deriving DecidableEq

/-! ### Webhook transformers (main.go `transform*Webhook`)

Each Go transformer's `switch webhook.Action` assigns an emoji, a title and
(for Issue/Project) a color together; the model splits the switch into one
function per assigned value, branch for branch.  `now` models
`time.Now().UTC().Format(time.RFC3339)`. -/

/-- Issue-event emoji by action. -/
def issueActionEmoji (action : Str) : Str :=
  if action = strBytes "create" then strBytes "🎯"
  else if action = strBytes "update" then strBytes "📝"
  else if action = strBytes "remove" then strBytes "🗑️"
  else strBytes "📋"

/-- Issue-event title by action. -/
def issueActionTitle (action : Str) : Str :=
  if action = strBytes "create" then strBytes "New Issue Created"
  else if action = strBytes "update" then strBytes "Issue Updated"
  else if action = strBytes "remove" then strBytes "Issue Removed"
  else strBytes "Issue " ++ strTitle action

/-- Issue-event color by action: note `create` keeps the initial `ColorBlue`
(the Go switch assigns `color = ColorBlue` in the `create` arm). -/
def issueActionColor (action : Str) : Nat :=
  if action = strBytes "create" then ColorBlue
  else if action = strBytes "update" then ColorYellow
  else if action = strBytes "remove" then ColorRed
  else ColorBlue

/-- The optional fields of an Issue embed, appended only when present. -/
def issueFields (issue : LinearWebhookIssue) : List DiscordField :=
  (match issue.state with
    | some st => [⟨strBytes "Status", getStateEmoji st.type ++ sp ++ st.name, true⟩]
    | none => []) ++
  (if issue.priorityLabel = [] then [] else
    [⟨strBytes "Priority", getPriorityEmoji issue.priority ++ sp ++ issue.priorityLabel, true⟩]) ++
  (match issue.assignee with
    | some u => [⟨strBytes "Assignee", strBytes "👤 " ++ u.name, true⟩]
    | none => []) ++
  (match issue.team with
    | some t => [⟨strBytes "Team", strBytes "👥 " ++ t.name, true⟩]
    | none => []) ++
  (if issue.labels = [] then [] else
    [⟨strBytes "Labels",
      joinWith sp (issue.labels.map (fun l => strBytes "`" ++ l.name ++ strBytes "`")),
      false⟩])

/-- The `by <actor>` footer, when the envelope carries an actor. -/
def actorFooter (webhook : LinearWebhook) : Option DiscordFooter :=
  webhook.actor.map (fun a => ⟨strBytes "by " ++ a.name, []⟩)

/-- The embed built by `transformIssueWebhook`. -/
def issueEmbed (webhook : LinearWebhook) (issue : LinearWebhookIssue) (now : Str) :
    DiscordEmbed :=
  ⟨issueActionEmoji webhook.action ++ sp ++ issueActionTitle webhook.action,
   strBytes "**[" ++ issue.identifier ++ strBytes "](" ++ issue.url ++
     strBytes ")** - " ++ issue.title ++ strBytes "\n\n" ++
     (if truncate issue.description 300 = [] then strBytes "*No description*"
      else truncate issue.description 300),
   issue.url,
   issueActionColor webhook.action,
   now,
   actorFooter webhook,
   none,
   issueFields issue⟩

/-- Go `transformIssueWebhook`. -/
def transformIssueWebhook (webhook : LinearWebhook) (now : Str) :
    Except Str (Option DiscordWebhook) :=
  match webhook.data with
  | .issueData issue =>
    .ok (some ⟨[], strBytes "Linear", linearAvatarURL, [issueEmbed webhook issue now]⟩)
  | _ => .error (strBytes "failed to parse issue data")

/-- Comment-event emoji by action. -/
def commentActionEmoji (action : Str) : Str :=
  if action = strBytes "create" then strBytes "💬"
  else if action = strBytes "update" then strBytes "✏️"
  else if action = strBytes "remove" then strBytes "🗑️"
  else strBytes "💬"

/-- Comment-event title by action. -/
def commentActionTitle (action : Str) : Str :=
  if action = strBytes "create" then strBytes "New Comment"
  else if action = strBytes "update" then strBytes "Comment Updated"
  else if action = strBytes "remove" then strBytes "Comment Removed"
  else strBytes "Comment " ++ strTitle action

/-- The quoted issue context line of a comment embed. -/
def commentIssueInfo (comment : LinearWebhookComment) : Str :=
  match comment.issue with
  | some iss => strBytes "**[" ++ iss.identifier ++ strBytes "](" ++ iss.url ++
      strBytes ")** - " ++ iss.title
  | none => []

/-- The embed built by `transformCommentWebhook`; the color is always
`ColorPurple`. -/
def commentEmbed (webhook : LinearWebhook) (comment : LinearWebhookComment) (now : Str) :
    DiscordEmbed :=
  ⟨commentActionEmoji webhook.action ++ sp ++ commentActionTitle webhook.action,
   commentIssueInfo comment ++ strBytes "\n\n>>> " ++ truncate comment.body 500,
   comment.url,
   ColorPurple,
   now,
   actorFooter webhook,
   comment.user.map (fun u => ⟨u.name, [], []⟩),
   []⟩

/-- Go `transformCommentWebhook`. -/
def transformCommentWebhook (webhook : LinearWebhook) (now : Str) :
    Except Str (Option DiscordWebhook) :=
  match webhook.data with
  | .commentData comment =>
    .ok (some ⟨[], strBytes "Linear", linearAvatarURL, [commentEmbed webhook comment now]⟩)
  | _ => .error (strBytes "failed to parse comment data")

/-- Project-event emoji by action. -/
def projectActionEmoji (action : Str) : Str :=
  if action = strBytes "create" then strBytes "🚀"
  else if action = strBytes "update" then strBytes "📊"
  else if action = strBytes "remove" then strBytes "🗑️"
  else strBytes "📁"

/-- Project-event title by action. -/
def projectActionTitle (action : Str) : Str :=
  if action = strBytes "create" then strBytes "New Project Created"
  else if action = strBytes "update" then strBytes "Project Updated"
  else if action = strBytes "remove" then strBytes "Project Removed"
  else strBytes "Project " ++ strTitle action

/-- Project-event color by action: `create` assigns `ColorGreen`. -/
def projectActionColor (action : Str) : Nat :=
  if action = strBytes "create" then ColorGreen
  else if action = strBytes "update" then ColorYellow
  else if action = strBytes "remove" then ColorRed
  else ColorBlue

/-- The embed built by `transformProjectWebhook`. -/
def projectEmbed (webhook : LinearWebhook) (project : LinearWebhookProject) (now : Str) :
    DiscordEmbed :=
  ⟨projectActionEmoji webhook.action ++ sp ++ projectActionTitle webhook.action,
   strBytes "**" ++ project.name ++ strBytes "**\n\n" ++
     (if truncate project.description 300 = [] then strBytes "*No description*"
      else truncate project.description 300),
   project.url,
   projectActionColor webhook.action,
   now,
   actorFooter webhook,
   none,
   if project.state = [] then [] else [⟨strBytes "State", project.state, true⟩]⟩

/-- Go `transformProjectWebhook`. -/
def transformProjectWebhook (webhook : LinearWebhook) (now : Str) :
    Except Str (Option DiscordWebhook) :=
  match webhook.data with
  | .projectData project =>
    .ok (some ⟨[], strBytes "Linear", linearAvatarURL, [projectEmbed webhook project now]⟩)
  | _ => .error (strBytes "failed to parse project data")

/-- Go `transformWebhookToDiscord`: dispatch on the type discriminator;
unknown types yield `(nil, nil)`. -/
def transformWebhookToDiscord (webhook : LinearWebhook) (now : Str) :
    Except Str (Option DiscordWebhook) :=
  if webhook.type = strBytes "Issue" then transformIssueWebhook webhook now
  else if webhook.type = strBytes "Comment" then transformCommentWebhook webhook now
  else if webhook.type = strBytes "Project" then transformProjectWebhook webhook now
  else .ok none

/-- Go `handleLinearWebhook` after method check and JSON parse: the HTTP
status and the payloads posted downstream.  `deliveryOk` models the outcome
of the Discord POST; `sendToDiscord` is attempted exactly on the recorded
payloads. -/
def handleLinearWebhook (webhook : LinearWebhook) (now : Str) (deliveryOk : Bool) :
    Nat × List DiscordWebhook :=
  match transformWebhookToDiscord webhook now with
  | .error _ => (500, [])
  | .ok none => (200, [])
  | .ok (some p) => if deliveryOk then (200, [p]) else (500, [p])

/-- The embed colors of a transformer result, `none` for error or no
payload. -/
def embedColors (r : Except Str (Option DiscordWebhook)) : Option (List Nat) :=
  match r with
  | .ok (some w) => some (w.embeds.map (fun e => e.color))
  | _ => none

/-- A sample webhook issue payload. -/
def demoWebhookIssue : LinearWebhookIssue :=
  ⟨strBytes "id1", strBytes "SCE-1", strBytes "Fix bug", [], 2, strBytes "High",
    none, none, none, [], strBytes "https://linear.app/i/SCE-1"⟩

/-- A sample Issue `create` envelope. -/
def demoIssueCreate : LinearWebhook :=
  ⟨strBytes "create", none, [], .issueData demoWebhookIssue, strBytes "Issue", []⟩

/-- C4 counterexample: an Issue `create` webhook gets the brand blue embed
color, not the positive green the claim states. -/
theorem issue_create_color_counterexample :
    embedColors (transformWebhookToDiscord demoIssueCreate (strBytes "now")) =
      some [ColorBlue] ∧ ColorBlue ≠ ColorGreen := by decide

/-- C4 amended: Issue events color blue for `create` (the brand color, not
green), yellow for `update`, red for `remove`; Project events green, yellow,
red respectively; Comment events always purple. -/
theorem transform_embed_colors (w : LinearWebhook) (now : Str) :
    (w.type = strBytes "Issue" → (∃ i, w.data = WebhookData.issueData i) →
      embedColors (transformWebhookToDiscord w now) = some [issueActionColor w.action]) ∧
    (w.type = strBytes "Project" → (∃ p, w.data = WebhookData.projectData p) →
      embedColors (transformWebhookToDiscord w now) = some [projectActionColor w.action]) ∧
    (w.type = strBytes "Comment" → (∃ c, w.data = WebhookData.commentData c) →
      embedColors (transformWebhookToDiscord w now) = some [ColorPurple]) ∧
    issueActionColor (strBytes "create") = ColorBlue ∧
    issueActionColor (strBytes "update") = ColorYellow ∧
    issueActionColor (strBytes "remove") = ColorRed ∧
    projectActionColor (strBytes "create") = ColorGreen ∧
    projectActionColor (strBytes "update") = ColorYellow ∧
    projectActionColor (strBytes "remove") = ColorRed := by
  refine ⟨?_, ?_, ?_, by decide, by decide, by decide, by decide, by decide, by decide⟩
  · rintro hty ⟨i, hdata⟩
    simp [transformWebhookToDiscord, hty, transformIssueWebhook, hdata,
      embedColors, issueEmbed]
  · rintro hty ⟨p, hdata⟩
    unfold transformWebhookToDiscord
    rw [hty, if_neg (show strBytes "Project" ≠ strBytes "Issue" by decide),
      if_neg (show strBytes "Project" ≠ strBytes "Comment" by decide)]
    simp [transformProjectWebhook, hdata, embedColors, projectEmbed]
  · rintro hty ⟨c, hdata⟩
    unfold transformWebhookToDiscord
    rw [hty, if_neg (show strBytes "Comment" ≠ strBytes "Issue" by decide)]
    simp [transformCommentWebhook, hdata, embedColors, commentEmbed]

/-- C4 witness: the amended color mapping evaluated on a concrete Issue
`create` envelope. -/
theorem transform_embed_colors_witness :
    embedColors (transformWebhookToDiscord demoIssueCreate (strBytes "now")) =
      some [issueActionColor (strBytes "create")] :=
  (transform_embed_colors demoIssueCreate (strBytes "now")).1 rfl ⟨demoWebhookIssue, rfl⟩

/-- C5: an envelope whose type is none of Issue, Comment, Project produces
no payload and no error, nothing is sent downstream, and the handler answers
HTTP 200. -/
theorem unknown_type_dropped (w : LinearWebhook) (now : Str) (deliveryOk : Bool)
    (h1 : w.type ≠ strBytes "Issue") (h2 : w.type ≠ strBytes "Comment")
    (h3 : w.type ≠ strBytes "Project") :
    transformWebhookToDiscord w now = .ok none ∧
    handleLinearWebhook w now deliveryOk = (200, []) := by
  have ht : transformWebhookToDiscord w now = .ok none := by
    unfold transformWebhookToDiscord
    rw [if_neg h1, if_neg h2, if_neg h3]
  exact ⟨ht, by unfold handleLinearWebhook; rw [ht]⟩

/-- C5 witness: a `Reaction` envelope is acknowledged with 200 and nothing
is sent. -/
theorem unknown_type_dropped_witness :
    transformWebhookToDiscord
        ⟨strBytes "create", none, [], WebhookData.malformed, strBytes "Reaction", []⟩
        (strBytes "now") = .ok none ∧
    handleLinearWebhook
        ⟨strBytes "create", none, [], WebhookData.malformed, strBytes "Reaction", []⟩
        (strBytes "now") true = (200, []) :=
  unknown_type_dropped
    ⟨strBytes "create", none, [], WebhookData.malformed, strBytes "Reaction", []⟩
    (strBytes "now") true (by decide) (by decide) (by decide)

/-! ### Per-user report (main.go `generateUserTasksReport`) -/

/-- One task line of a per-user segment:
`%s [%s](%s) - %s` with priority emoji, identifier, url, truncated title. -/
def taskLine (issue : Issue) : Str :=
  getPriorityEmoji issue.priority ++ sp ++ strBytes "[" ++ issue.identifier ++
    strBytes "](" ++ issue.url ++ strBytes ") - " ++ truncate issue.title 50

/-- The overflow line `*... and %d more*`. -/
def overflowLine (n : Nat) : Str :=
  strBytes "*... and " ++ strBytes (toString n) ++ strBytes " more*"

/-- Worker for the per-user task list: Go's indexed loop over the group's
issues, with the `i >= 15` overflow-and-break arm; `total` is
`len(group.Issues)` (when the arm is reached, `total > 15`, so the Go `int`
subtraction agrees with truncated subtraction). -/
def taskLinesAux (total : Nat) : Nat → List Issue → List Str
  | _, [] => []
  | i, issue :: rest =>
    if 15 ≤ i then [overflowLine (total - 15)]
    else taskLine issue :: taskLinesAux total (i + 1) rest

/-- The task lines of one assignee group. -/
def userTaskLines (issues : List Issue) : List Str :=
  taskLinesAux issues.length 0 issues

theorem taskLinesAux_all (l : List Issue) (i total : Nat) (h : l.length + i ≤ 15) :
    taskLinesAux total i l = l.map taskLine := by
  induction l generalizing i with
  | nil => simp [taskLinesAux]
  | cons issue rest ih =>
    have hi : ¬ 15 ≤ i := by simp at h; omega
    simp only [taskLinesAux, if_neg hi, List.map_cons]
    rw [ih (i + 1) (by simp at h ⊢; omega)]

theorem taskLinesAux_overflow (l : List Issue) (i total : Nat)
    (h : 15 < l.length + i) (hi : i ≤ 15) :
    taskLinesAux total i l =
      (l.take (15 - i)).map taskLine ++ [overflowLine (total - 15)] := by
  induction l generalizing i with
  | nil => simp at h; omega
  | cons issue rest ih =>
    by_cases h15 : 15 ≤ i
    · have : i = 15 := le_antisymm hi h15
      subst this
      simp [taskLinesAux]
    · simp only [taskLinesAux, if_neg h15]
      rw [ih (i + 1) (by simp at h ⊢; omega) (by omega)]
      rw [show 15 - i = (15 - (i + 1)) + 1 by omega, List.take_succ_cons, List.map_cons]
      simp

/-- C6: a group of `n ≤ 15` issues is listed in full with no overflow line;
with `n > 15` exactly the first 15 issues are listed, followed by a single
`*... and (n-15) more*` line containing the text `... and (n-15) more`;
23 issues give 15 lines plus `... and 8 more`. -/
theorem userTaskLines_overflow (issues : List Issue) :
    (issues.length ≤ 15 → userTaskLines issues = issues.map taskLine) ∧
    (15 < issues.length →
      userTaskLines issues =
        (issues.take 15).map taskLine ++ [overflowLine (issues.length - 15)] ∧
      (userTaskLines issues).length = 16 ∧
      ∃ l r, overflowLine (issues.length - 15) =
        l ++ (strBytes "... and " ++ strBytes (toString (issues.length - 15)) ++
          strBytes " more") ++ r) ∧
    (issues.length = 23 →
      userTaskLines issues = (issues.take 15).map taskLine ++ [overflowLine 8]) := by
  refine ⟨fun h => taskLinesAux_all issues 0 issues.length (by omega), fun h => ?_, fun h => ?_⟩
  · have hmain := taskLinesAux_overflow issues 0 issues.length (by omega) (by omega)
    simp only [Nat.sub_zero] at hmain
    have hu : userTaskLines issues =
        (issues.take 15).map taskLine ++ [overflowLine (issues.length - 15)] := hmain
    refine ⟨hu, ?_, [42], [42], ?_⟩
    · rw [hu]
      simp [List.length_take, Nat.min_eq_left (by omega : 15 ≤ issues.length)]
    · have h1 : strBytes "*... and " = [42] ++ strBytes "... and " := by decide
      have h2 : strBytes " more*" = strBytes " more" ++ [42] := by decide
      rw [overflowLine, h1, h2]
      simp [List.append_assoc]
  · have hmain := taskLinesAux_overflow issues 0 issues.length (by omega) (by omega)
    simp only [Nat.sub_zero] at hmain
    have hu : userTaskLines issues =
        (issues.take 15).map taskLine ++ [overflowLine (issues.length - 15)] := hmain
    rw [hu, h]

/-- 23 identical issues for one assignee. -/
def demo23 : List Issue :=
  List.replicate 23 (mkIssue "T" (mkState "Todo" "unstarted") (some (mkUser "alice" "Alice")) 1)

/-- C6 witness: 23 issues yield the first 15 lines plus one `... and 8 more`
line. -/
theorem userTaskLines_overflow_witness :
    userTaskLines demo23 = (demo23.take 15).map taskLine ++ [overflowLine 8] :=
  (userTaskLines_overflow demo23).2.2 (by decide)

/-- C6 counterexample: for a 23-issue group the 16th line is the italicized
`*... and 8 more*`, which differs byte-for-byte from the claimed literal
`... and 8 more` (it does contain that text). -/
theorem userTaskLines_literal_counterexample :
    (userTaskLines demo23).getLast? = some (strBytes "*... and 8 more*") ∧
    strBytes "*... and 8 more*" ≠ strBytes "... and 8 more" := by decide

/-- An element of the downstream trace: a webhook delivery or a sleep. -/
inductive SendEvent where
  | deliver (w : DiscordWebhook)
  | sleepMs (n : Nat)
  deriving DecidableEq

/-- The `"Linear Task Report"` wrapper around one batch of embeds. -/
def taskReportWebhook (embeds : List DiscordEmbed) : DiscordWebhook :=
  ⟨[], strBytes "Linear Task Report", linearAvatarURL, embeds⟩

/-- One per-assignee segment: `%s %s (%d tasks)` title and the joined task
lines. -/
def userGroupEmbed (g : AssigneeGroup) : DiscordEmbed :=
  ⟨(if g.name = unassignedName then strBytes "❓" else strBytes "👤") ++ sp ++
     g.name ++ strBytes " (" ++ strBytes (toString g.issues.length) ++ strBytes " tasks)",
   joinWith (strBytes "\n") (userTaskLines g.issues),
   [], ColorGray, [], none, none, []⟩

/-- The header segment of the per-user report. -/
def userReportHeader (issues : List Issue) (byAssignee : List AssigneeGroup) (now : Str) :
    DiscordEmbed :=
  ⟨strBytes "📋 Open Tasks by User",
   strBytes "**" ++ strBytes (toString issues.length) ++
     strBytes "** open tasks across **" ++ strBytes (toString byAssignee.length) ++
     strBytes "** assignees",
   [], ColorBlue, now, none, none, []⟩

/-- The `"no open issues"` webhook of `sendNoIssuesReport`. -/
def noIssuesWebhook (now : Str) : DiscordWebhook :=
  ⟨[], strBytes "Linear Daily Digest", linearAvatarURL,
   [⟨strBytes "📊 Linear Daily Digest",
     strBytes "No open issues found. Great job keeping the backlog clean! 🎉",
     [], ColorGreen, now, some ⟨strBytes "Linear Daily Digest", []⟩, none, []⟩]⟩

/-- The send/sleep trace of the per-user report loop: one embed is appended
per group; when the accumulated batch reaches 10 it is delivered and a
500 ms sleep follows; a non-empty remainder is delivered after the loop
(deliveries are modelled as succeeding). -/
def userReportLoop : List AssigneeGroup → List DiscordEmbed → List SendEvent
  | [], embeds =>
    if 0 < embeds.length then [SendEvent.deliver (taskReportWebhook embeds)] else []
  | g :: rest, embeds =>
    if 10 ≤ (embeds ++ [userGroupEmbed g]).length then
      SendEvent.deliver (taskReportWebhook (embeds ++ [userGroupEmbed g])) ::
        SendEvent.sleepMs 500 :: userReportLoop rest []
    else userReportLoop rest (embeds ++ [userGroupEmbed g])

/-- Go `generateUserTasksReport` after a successful fetch: the downstream
trace for a given fetched issue list. -/
def generateUserTasksReport (issues : List Issue) (now : Str) : List SendEvent :=
  if issues.length = 0 then [SendEvent.deliver (noIssuesWebhook now)]
  else
    userReportLoop (groupByAssignee issues)
      [userReportHeader issues (groupByAssignee issues) now]

theorem userReportLoop_flush (gs : List AssigneeGroup) (embeds : List DiscordEmbed)
    (hlt : embeds.length < 10) (hge : 10 ≤ embeds.length + gs.length) :
    ∃ w, w.embeds.length = 10 ∧
      userReportLoop gs embeds =
        SendEvent.deliver w :: SendEvent.sleepMs 500 ::
          userReportLoop (gs.drop (10 - embeds.length)) [] := by
  induction gs generalizing embeds with
  | nil => simp at hge; omega
  | cons g rest ih =>
    by_cases h9 : embeds.length = 9
    · refine ⟨taskReportWebhook (embeds ++ [userGroupEmbed g]), by simp [taskReportWebhook, h9], ?_⟩
      simp only [userReportLoop, List.length_append, List.length_cons, List.length_nil, h9]
      rw [if_pos (by omega), show 10 - 9 = 1 by omega]
      simp
    · have hcond : ¬ 10 ≤ (embeds ++ [userGroupEmbed g]).length := by simp; omega
      simp only [userReportLoop, if_neg hcond]
      obtain ⟨w, hw, hrec⟩ := ih (embeds ++ [userGroupEmbed g])
        (by simp; omega) (by simp at hge ⊢; omega)
      refine ⟨w, hw, ?_⟩
      rw [hrec]
      have : 10 - embeds.length = (10 - (embeds ++ [userGroupEmbed g]).length) + 1 := by
        simp; omega
      rw [this, List.drop_succ_cons]

theorem userReportLoop_drain (gs : List AssigneeGroup) (embeds : List DiscordEmbed)
    (hlt : embeds.length + gs.length < 10) (hpos : 0 < embeds.length + gs.length) :
    ∃ w, w.embeds.length = embeds.length + gs.length ∧
      userReportLoop gs embeds = [SendEvent.deliver w] := by
  induction gs generalizing embeds with
  | nil =>
    refine ⟨taskReportWebhook embeds, by simpa [taskReportWebhook] using rfl, ?_⟩
    simp only [userReportLoop]
    rw [if_pos (by simpa using hpos)]
  | cons g rest ih =>
    have hcond : ¬ 10 ≤ (embeds ++ [userGroupEmbed g]).length := by simp at hlt ⊢; omega
    simp only [userReportLoop, if_neg hcond]
    obtain ⟨w, hw, hrec⟩ := ih (embeds ++ [userGroupEmbed g])
      (by simp at hlt ⊢; omega) (by simp)
    exact ⟨w, by simp at hw ⊢; omega, hrec⟩

/-- C7: with 24 assignee groups (header plus 24 segments) the per-user
report makes exactly three deliveries of 10, 10 and 5 embeds in that order,
with the fixed 500 ms sleep between the first two; each in-loop flush fires
exactly when the batch reaches 10 embeds. -/
theorem userReport_batches (issues : List Issue) (now : Str)
    (hne : issues.length ≠ 0) (h24 : (groupByAssignee issues).length = 24) :
    ∃ w1 w2 w3,
      generateUserTasksReport issues now =
        [SendEvent.deliver w1, SendEvent.sleepMs 500, SendEvent.deliver w2,
         SendEvent.sleepMs 500, SendEvent.deliver w3] ∧
      w1.embeds.length = 10 ∧ w2.embeds.length = 10 ∧ w3.embeds.length = 5 := by
  rw [generateUserTasksReport, if_neg hne]
  obtain ⟨w1, hw1, h1⟩ := userReportLoop_flush (groupByAssignee issues)
    [userReportHeader issues (groupByAssignee issues) now] (by simp) (by simp [h24])
  simp only [List.length_cons, List.length_nil] at h1
  obtain ⟨w2, hw2, h2⟩ := userReportLoop_flush ((groupByAssignee issues).drop (10 - 1)) []
    (by simp) (by simp [h24])
  simp only [List.length_nil] at h2
  obtain ⟨w3, hw3, h3⟩ := userReportLoop_drain
    (((groupByAssignee issues).drop (10 - 1)).drop (10 - 0)) []
    (by simp [h24]) (by simp [h24])
  refine ⟨w1, w2, w3, ?_, hw1, hw2, by simpa [h24] using hw3⟩
  rw [h1, h2, h3]

/-- A sample user keyed by a decimal index. -/
def demoUser (k : Nat) : User :=
  ⟨strBytes (toString k), strBytes (toString k), strBytes (toString k), []⟩

/-- 24 issues with 24 distinct assignees. -/
def demo24 : List Issue :=
  (List.range 24).map
    (fun k => mkIssue "T" (mkState "Todo" "unstarted") (some (demoUser k)) 0)

/-- C7 witness: the 10/10/5 batch trace on 24 concrete assignee groups. -/
theorem userReport_batches_witness :
    ∃ w1 w2 w3,
      generateUserTasksReport demo24 (strBytes "now") =
        [SendEvent.deliver w1, SendEvent.sleepMs 500, SendEvent.deliver w2,
         SendEvent.sleepMs 500, SendEvent.deliver w3] ∧
      w1.embeds.length = 10 ∧ w2.embeds.length = 10 ∧ w3.embeds.length = 5 :=
  userReport_batches demo24 (strBytes "now") (by decide) (by decide)

/-! ### Cursor pagination (main.go `fetchAllOpenIssues`)

The upstream is modelled as a finite script of successful page responses,
consumed in request order; GraphQL transport or query errors abort the loop
in Go and are outside the claim, so the script carries only successes. -/

/-- One page of the issues query response (`nodes` + `pageInfo`). -/
structure Page where
  nodes : List Issue
  hasNextPage : Bool
  endCursor : Str
  deriving DecidableEq

/-- The `cursor` variable sent with one request: Go omits the variable while
the `cursor` string is still empty. -/
def reqCursor (c : Str) : Option Str := if c = [] then none else some c

/-- Go `fetchAllOpenIssues`' loop body run against the script: the list of
requests issued (each by its cursor variable) and the accumulated nodes.
`none` in the second component models the loop still waiting for another
page when the script ends — the loop has no iteration cap. -/
def fetchLoop (c : Str) : List Page → List (Option Str) × Option (List Issue)
  | [] => ([reqCursor c], none)
  | p :: rest =>
    if p.hasNextPage then
      ((reqCursor c) :: (fetchLoop p.endCursor rest).1,
       ((fetchLoop p.endCursor rest).2).map (fun tl => p.nodes ++ tl))
    else ([reqCursor c], some p.nodes)

/-- Go `fetchAllOpenIssues`: the loop starts with the empty cursor. -/
def fetchAllOpenIssues (pages : List Page) : List (Option Str) × Option (List Issue) :=
  fetchLoop [] pages

theorem fetchLoop_stops (c : Str) (pre : List Page) (p0 : Page) (rest : List Page)
    (hall : ∀ q ∈ pre, q.hasNextPage = true) (hp0 : p0.hasNextPage = false) :
    fetchLoop c (pre ++ p0 :: rest) =
      (reqCursor c :: pre.map (fun q => reqCursor q.endCursor),
       some ((pre.map Page.nodes).flatten ++ p0.nodes)) := by
  induction pre generalizing c with
  | nil => simp [fetchLoop, hp0]
  | cons q pre ih =>
    have hq : q.hasNextPage = true := hall q (by simp)
    simp only [List.cons_append, fetchLoop, hq, if_true, List.append_eq]
    rw [ih q.endCursor (fun r hr => hall r (by simp [hr]))]
    simp [List.append_assoc]

theorem fetchLoop_diverges (c : Str) (pages : List Page)
    (hall : ∀ q ∈ pages, q.hasNextPage = true) :
    (fetchLoop c pages).2 = none := by
  induction pages generalizing c with
  | nil => simp [fetchLoop]
  | cons q rest ih =>
    have hq : q.hasNextPage = true := hall q (by simp)
    simp [fetchLoop, hq, ih q.endCursor (fun r hr => hall r (by simp [hr]))]

/-- C8: when some page reports `hasNextPage = false`, the fetch returns the
in-order concatenation of the node lists up to and including the first such
page, issuing the first request with no cursor and each later request with
the previous page's `endCursor`; when every page of the script reports
`hasNextPage = true` the loop consumes the whole script and is still
waiting — it never terminates. -/
theorem fetchAllOpenIssues_pagination (pre : List Page) (p0 : Page) (rest : List Page)
    (hall : ∀ q ∈ pre, q.hasNextPage = true) (hp0 : p0.hasNextPage = false) :
    (fetchAllOpenIssues (pre ++ p0 :: rest)).2 =
      some ((pre.map Page.nodes).flatten ++ p0.nodes) ∧
    (fetchAllOpenIssues (pre ++ p0 :: rest)).1 =
      none :: pre.map (fun q => reqCursor q.endCursor) ∧
    ∀ pages : List Page, (∀ q ∈ pages, q.hasNextPage = true) →
      (fetchAllOpenIssues pages).2 = none := by
  have h := fetchLoop_stops [] pre p0 rest hall hp0
  refine ⟨?_, ?_, fun pages hps => fetchLoop_diverges [] pages hps⟩
  · rw [fetchAllOpenIssues, h]
  · rw [fetchAllOpenIssues, h]
    simp [reqCursor]

/-- A two-page script for the C8 witness. -/
def demoPages : List Page :=
  [⟨[mkIssue "P1" (mkState "Todo" "unstarted") none 0], true, strBytes "cur1"⟩,
   ⟨[mkIssue "P2" (mkState "Todo" "unstarted") none 0], false, strBytes "cur2"⟩]

/-- C8 witness: a two-page script concatenates both node lists and threads
the first page's `endCursor` into the second request. -/
theorem fetchAllOpenIssues_pagination_witness :
    (fetchAllOpenIssues demoPages).2 =
      some [mkIssue "P1" (mkState "Todo" "unstarted") none 0,
            mkIssue "P2" (mkState "Todo" "unstarted") none 0] ∧
    (fetchAllOpenIssues demoPages).1 = [none, some (strBytes "cur1")] := by
  have h := fetchAllOpenIssues_pagination
    [⟨[mkIssue "P1" (mkState "Todo" "unstarted") none 0], true, strBytes "cur1"⟩]
    ⟨[mkIssue "P2" (mkState "Todo" "unstarted") none 0], false, strBytes "cur2"⟩
    [] (by decide) (by decide)
  exact ⟨h.1, by rw [show demoPages =
    [⟨[mkIssue "P1" (mkState "Todo" "unstarted") none 0], true, strBytes "cur1"⟩] ++
      ⟨[mkIssue "P2" (mkState "Todo" "unstarted") none 0], false, strBytes "cur2"⟩ :: []
    from rfl, h.2.1]; decide⟩

end LinearDiscordRelay
